import Mathlib

/-! Verification of `gulp/tasks/docs.js`.

A shallow embedding of the documentation pipeline declared in
`src/gulp/tasks/docs.js`: the task declarations in file order, the bodies of the
leaf tasks as data, the callback of `build:docs:webpack`, the middleware stack of
`serve:docs` and the watch bindings of `watch:docs`.  The task engine itself
(gulp) and the configuration module are not part of the source file; the first is
modelled from the specification, the second is a parameter.
-/

namespace Docs

/-! ## Configuration (`config`, `paths`) -/

/-- A path, as the list of its segments. -/
abbrev Path := List String

/-- The roots that `config.paths` resolves against.  The module `../../config` is
not part of the source file, so the roots are parameters. -/
structure Paths where
  baseRoot : Path
  srcRoot : Path
  docsSrcRoot : Path
  docsDistRoot : Path
  docsPublicRoot : Path
deriving DecidableEq, Repr

/-- The call `paths.base(sub)`. -/
def Paths.base (p : Paths) (sub : Path) : Path := p.baseRoot ++ sub

/-- The call `paths.src()`. -/
def Paths.src (p : Paths) (sub : Path) : Path := p.srcRoot ++ sub

/-- The call `paths.docsSrc(sub)`. -/
def Paths.docsSrc (p : Paths) (sub : Path) : Path := p.docsSrcRoot ++ sub

/-- The call `paths.docsDist(sub)`. -/
def Paths.docsDist (p : Paths) (sub : Path) : Path := p.docsDistRoot ++ sub

/-- The call `paths.docsPublic()`. -/
def Paths.docsPublic (p : Paths) (sub : Path) : Path := p.docsPublicRoot ++ sub

/-- The fields of `config` that `docs.js` reads. -/
structure Config where
  paths : Paths
  compiler_fail_on_warning : Bool
  compiler_stats : String
  server_port : Nat
  server_host : String
deriving DecidableEq, Repr

/-! ## Globs, composites and leaf bodies -/

/-- One glob of a matcher: the path the template literal interpolates, and the
literal text that follows it.  `neg` records a leading `!`. -/
structure Glob where
  neg : Bool
  root : Path
  rest : String
deriving DecidableEq, Repr

/-- An argument of `series(...)` / `parallel(...)`: a task name or a nested
composite. -/
inductive Node where
  | ref (name : String)
  | series (children : List Node)
  | parallel (children : List Node)
deriving Repr

/-- A JavaScript value, as far as `handleWatchChange` can tell values apart: the
value `undefined`, a string, or an object with its own properties (each kept as the
text it renders to). -/
inductive JsValue where
  | undefined
  | string (s : String)
  | object (fields : List (String × String))
deriving DecidableEq, Repr

/-- The property access `v.name`: a `TypeError` (`none`) on `undefined`, the value
`undefined` for a property the value does not have. A string has no property `path`
or `type`. -/
def JsValue.prop (v : JsValue) (name : String) : Option JsValue :=
  match v with
  | .undefined => none
  | .string _ => some .undefined
  | .object fields =>
    match fields.find? fun f => f.1 == name with
    | some f => some (.string f.2)
    | none => some .undefined

/-- The text a value renders to inside a template literal. -/
def JsValue.render : JsValue → String
  | .undefined => "undefined"
  | .string s => s
  | .object _ => "[object Object]"

/-- The line that `log(msg)` writes to the log. -/
def log (msg : String) : String := msg

/-- The listener `const handleWatchChange = e => log(...)` (line 22): the line it
logs, or `none` if reading `e.path` or `e.type` throws. -/
def handleWatchChange (e : JsValue) : Option String :=
  match e.prop "path", e.prop "type" with
  | some path, some type =>
    some (log ("File " ++ path.render ++ " was " ++ type.render ++ ", running tasks..."))
  | _, _ => none

/-- The plugins imported from `../plugins/*`. -/
inductive Plugin where
  | gulpReactDocgen
  | gulpComponentMenu
  | gulpExampleMenu
  | gulpExampleSources
deriving DecidableEq, Repr

/-- The three file predicates of `build:docs:less:src`. -/
inductive FileTest where
  | isThemeConfig
  | isSiteDirectory
  | isThemeLESS
deriving DecidableEq, Repr

/-- The edits applied under `g.if` in `build:docs:less:src`. -/
inductive FileEdit where
  | renameExtname (extname : String)
  | renameSiteDirname
  | replace (search : String) (replacement : String)
deriving DecidableEq, Repr

/-- One `.pipe(...)` stage before the final `dest`. -/
inductive Pipe where
  | plugin (p : Plugin)
  | gIf (test : FileTest) (edit : FileEdit)
deriving DecidableEq, Repr

/-- A leaf of the form `src(matcher, { since: lastRun(x) }).pipe(...).pipe(dest(d))`;
`since = none` when `src` is called without options. -/
structure Stream where
  matcher : List Glob
  since : Option String
  pipes : List Pipe
  dest : Path
deriving DecidableEq, Repr

/-- The commands handed to `sh`. -/
inductive Shell where
  | echoTo (text : String) (target : Path)
  | doctoc (file : Path)
  | ghPages (dir : Path)
deriving DecidableEq, Repr

/-- One `watch(patterns, task).on(event, listener)` call. -/
structure Binding where
  patterns : List Glob
  task : Node
  listeners : List (String × (JsValue → Option String))

/-- The body of a leaf task. -/
inductive Leaf where
  | rimraf (target : Path)
  | sh (cmd : Shell)
  | stream (s : Stream)
  | webpackRun
  | serve
  | watch (bindings : List Binding)

/-- The second argument of `task(name, ...)`: a function or a composite. -/
inductive TaskBody where
  | fn (leaf : Leaf)
  | composite (node : Node)

/-- One `task(name, body)` call. -/
structure Decl where
  name : String
  body : TaskBody

/-! ## The declarations of `docs.js` -/

/-- The matcher `componentsSrc` (lines 63-71). -/
def componentsSrc (cfg : Config) : List Glob :=
  [ ⟨false, cfg.paths.src [], "/addons/*/*.js"⟩,
    ⟨false, cfg.paths.src [], "/behaviors/*/*.js"⟩,
    ⟨false, cfg.paths.src [], "/elements/*/*.js"⟩,
    ⟨false, cfg.paths.src [], "/collections/*/*.js"⟩,
    ⟨false, cfg.paths.src [], "/modules/*/*.js"⟩,
    ⟨false, cfg.paths.src [], "/views/*/*.js"⟩,
    ⟨true, [], "**/index.js"⟩ ]

/-- The matcher `examplesSectionsSrc` (line 73). -/
def examplesSectionsSrc (cfg : Config) : List Glob :=
  [⟨false, cfg.paths.docsSrc [], "/examples/*/*/*/index.js"⟩]

/-- The matcher `examplesSrc` (line 74). -/
def examplesSrc (cfg : Config) : List Glob :=
  [⟨false, cfg.paths.docsSrc [], "/examples/*/*/*/!(*index).js"⟩]

/-- The body of `build:docs:less:src` (lines 80-102). -/
def buildDocsLessSrc (cfg : Config) : Stream :=
  { matcher :=
      [ ⟨false, cfg.paths.base ["node_modules", "semantic-ui-less"], "/**/*"⟩,
        ⟨true, cfg.paths.base ["node_modules", "semantic-ui-less"], "/**/*.js"⟩ ]
    since := some "build:docs:less:src"
    pipes :=
      [ .gIf .isThemeConfig (.renameExtname ""),
        .gIf .isSiteDirectory .renameSiteDirname,
        .gIf .isThemeConfig (.replace "import \"theme" "import (multiple) \"theme"),
        .gIf .isThemeLESS (.replace "import url" "import (css) url") ]
    dest := cfg.paths.docsSrc ["assets", "less"] }

/-- The body of `build:docs:less:dist` (lines 104-109). -/
def buildDocsLessDist (cfg : Config) : Stream :=
  { matcher := [⟨false, cfg.paths.docsSrc ["assets", "less"], "/**/*"⟩]
    since := some "build:docs:less:dist"
    pipes := []
    dest := cfg.paths.docsDist ["assets", "less"] }

/-- The body of `build:docs:docgen` (lines 111-115). -/
def buildDocsDocgen (cfg : Config) : Stream :=
  { matcher := componentsSrc cfg
    since := some "build:docs:docgen"
    pipes := [.plugin .gulpReactDocgen]
    dest := cfg.paths.docsSrc ["componentInfo"] }

/-- The body of `build:docs:component-menu` (lines 117-121). -/
def buildDocsComponentMenu (cfg : Config) : Stream :=
  { matcher := componentsSrc cfg
    since := some "build:docs:component-menu"
    pipes := [.plugin .gulpComponentMenu]
    dest := cfg.paths.docsSrc [] }

/-- The body of `build:docs:example-menu` (lines 123-127). -/
def buildDocsExampleMenu (cfg : Config) : Stream :=
  { matcher := examplesSectionsSrc cfg
    since := some "build:docs:example-menu"
    pipes := [.plugin .gulpExampleMenu]
    dest := cfg.paths.docsSrc ["exampleMenus"] }

/-- The body of `build:docs:example-sources` (lines 129-133). -/
def buildDocsExampleSources (cfg : Config) : Stream :=
  { matcher := examplesSrc cfg
    since := some "build:docs:example-sources"
    pipes := [.plugin .gulpExampleSources]
    dest := cfg.paths.docsSrc [] }

/-- The body of `build:docs:html` (line 145). -/
def buildDocsHtml (cfg : Config) : Stream :=
  { matcher := [⟨false, cfg.paths.docsSrc ["404.html"], ""⟩]
    since := none
    pipes := []
    dest := cfg.paths.docsDist [] }

/-- The body of `build:docs:images` (lines 147-149). -/
def buildDocsImages (cfg : Config) : Stream :=
  { matcher := [⟨false, cfg.paths.docsPublic [], "/**/*.\x7bpng,jpg,gif\x7d"⟩]
    since := none
    pipes := []
    dest := cfg.paths.docsDist [] }

/-- The four `watch(...)` calls of `watch:docs` (lines 243-255), in order. -/
def watchDocs (cfg : Config) : List Binding :=
  [ ⟨componentsSrc cfg, .series [.ref "build:docs:docgen"], [("change", handleWatchChange)]⟩,
    ⟨examplesSectionsSrc cfg, .series [.ref "build:docs:example-menu"],
      [("change", handleWatchChange)]⟩,
    ⟨examplesSrc cfg, .series [.ref "build:docs:example-sources"],
      [("change", handleWatchChange)]⟩,
    ⟨[⟨false, cfg.paths.docsPublic [], "/**/*.\x7bpng,jpg,gif\x7d"⟩],
      .series [.ref "build:docs:images"], [("change", handleWatchChange)]⟩ ]

/-- The `task(...)` calls of `docs.js`, in file order. -/
def docsJs (cfg : Config) : List Decl :=
  [ ⟨"clean:docs:component-info", .fn (.rimraf (cfg.paths.docsSrc ["componentInfo"]))⟩,
    ⟨"clean:docs:component-menu", .fn (.rimraf (cfg.paths.docsSrc ["componentMenu.json"]))⟩,
    ⟨"clean:docs:dist", .fn (.rimraf (cfg.paths.docsDist []))⟩,
    ⟨"clean:docs:example-menus", .fn (.rimraf (cfg.paths.docsSrc ["exampleMenus"]))⟩,
    ⟨"clean:docs:example-sources", .fn (.rimraf (cfg.paths.docsSrc ["exampleSources.json"]))⟩,
    ⟨"clean:docs", .composite (.parallel
      [ .ref "clean:docs:component-info",
        .ref "clean:docs:component-menu",
        .ref "clean:docs:dist",
        .ref "clean:docs:example-menus",
        .ref "clean:docs:example-sources" ])⟩,
    ⟨"build:docs:cname",
      .fn (.sh (.echoTo "react.semantic-ui.com" (cfg.paths.docsDist ["CNAME"])))⟩,
    ⟨"build:docs:less:src", .fn (.stream (buildDocsLessSrc cfg))⟩,
    ⟨"build:docs:less:dist", .fn (.stream (buildDocsLessDist cfg))⟩,
    ⟨"build:docs:docgen", .fn (.stream (buildDocsDocgen cfg))⟩,
    ⟨"build:docs:component-menu", .fn (.stream (buildDocsComponentMenu cfg))⟩,
    ⟨"build:docs:example-menu", .fn (.stream (buildDocsExampleMenu cfg))⟩,
    ⟨"build:docs:example-sources", .fn (.stream (buildDocsExampleSources cfg))⟩,
    ⟨"build:docs:json", .composite (.parallel
      [ .ref "build:docs:docgen",
        .ref "build:docs:component-menu",
        .ref "build:docs:example-menu",
        .ref "build:docs:example-sources" ])⟩,
    ⟨"build:docs:html", .fn (.stream (buildDocsHtml cfg))⟩,
    ⟨"build:docs:images", .fn (.stream (buildDocsImages cfg))⟩,
    ⟨"build:docs:toc",
      .fn (.sh (.doctoc (cfg.paths.base [".github", "CONTRIBUTING.md"])))⟩,
    ⟨"build:docs:webpack", .fn .webpackRun⟩,
    ⟨"build:docs", .composite (.series
      [ .parallel [.ref "build:docs:toc", .ref "build:docs:less:src"],
        .ref "clean:docs",
        .parallel
          [ .ref "build:docs:less:dist",
            .ref "build:docs:json",
            .ref "build:docs:html",
            .ref "build:docs:images" ],
        .ref "build:docs:webpack" ])⟩,
    ⟨"deploy:docs", .fn (.sh (.ghPages (cfg.paths.docsDist [])))⟩,
    ⟨"serve:docs", .fn .serve⟩,
    ⟨"watch:docs", .fn (.watch (watchDocs cfg))⟩,
    ⟨"docs", .composite (.series
      [.ref "build:docs", .ref "serve:docs", .ref "watch:docs"])⟩ ]

/-! ## The callback of `build:docs:webpack` (lines 155-178) -/

/-- The `stats` object handed to the callback of `compiler.run`: the two lists
that `stats.toJson()` is destructured into and the rendering `stats.toString`. -/
structure Stats where
  errors : List String
  warnings : List String
  toString : String → String

/-- How the callback of `compiler.run` ends: it reaches `cb(err)`, or it throws
`new PluginError(plugin, message)` and never calls `cb`. -/
inductive Completion where
  | cb (err : Option String)
  | thrown (plugin : String) (message : String)
deriving DecidableEq, Repr

/-- The lines logged by a callback and the way it ended. -/
structure CallbackResult where
  logged : List String
  completion : Completion
deriving DecidableEq, Repr

/-- The text of `xs.toString()` for an array of strings. -/
def arrayToString (xs : List String) : String := ",".intercalate xs

/-- The callback `(err, stats) => ...` of `compiler.run` in `build:docs:webpack`.
`err = none` stands for a falsy `err`; `some e` carries `err.toString()`. -/
def buildDocsWebpack (config : Config) (err : Option String) (stats : Stats) :
    CallbackResult :=
  let errors := stats.errors
  let warnings := stats.warnings
  let l0 := [log (stats.toString config.compiler_stats)]
  match err with
  | some e =>
    ⟨l0 ++ [log "Webpack compiler encountered a fatal error."], .thrown "webpack" e⟩
  | none =>
    if errors.length > 0 then
      ⟨l0 ++ [log "Webpack compiler encountered errors."],
        .thrown "webpack" (arrayToString errors)⟩
    else if warnings.length > 0 && config.compiler_fail_on_warning then
      ⟨l0, .thrown "webpack" (arrayToString warnings)⟩
    else
      ⟨l0, .cb err⟩

/-- The leaf signals successful completion: `cb` is reached with no error. -/
def Completion.succeeded : Completion → Bool
  | .cb none => true
  | _ => false

/-! ## The middleware chain of `serve:docs` (lines 203-235) -/

/-- The one field of the webpack configuration that `serve:docs` reads,
`webpackConfig.output.publicPath`.  The module `webpack.config.babel` is not part
of the source file, so it is a parameter. -/
structure WebpackConfig where
  publicPath : String
deriving DecidableEq, Repr

/-- The compiler object `webpack(webpackConfig)`. -/
structure Compiler where
  options : WebpackConfig
deriving DecidableEq, Repr

/-- The call `webpack(webpackConfig)`. -/
def webpack (webpackConfig : WebpackConfig) : Compiler := ⟨webpackConfig⟩

/-- The options object passed to `WebpackDevMiddleware`. -/
structure DevOptions where
  publicPath : String
  contentBase : Path
  hot : Bool
  quiet : Bool
  noInfo : Bool
  lazy : Bool
  stats : String
deriving DecidableEq, Repr

/-- The request handlers that `serve:docs` builds. -/
inductive Middleware where
  | historyApiFallback (verbose : Bool)
  | WebpackDevMiddleware (compiler : Compiler) (options : DevOptions)
  | WebpackHotMiddleware (compiler : Compiler)
  | static (root : Path)
deriving DecidableEq, Repr

/-- A method call on the express application. -/
inductive AppCall where
  | use (handler : Middleware)
  | listen (port : Nat) (host : String)
deriving DecidableEq, Repr

/-- The express application, as the calls made on it so far, oldest first. -/
abbrev App := List AppCall

/-- The fresh application `express()`. -/
def express : App := []

/-- The call `app.use(handler)`. -/
def App.use (app : App) (handler : Middleware) : App := app ++ [.use handler]

/-- The call `app.listen(port, host, ...)`. -/
def App.listen (app : App) (port : Nat) (host : String) : App :=
  app ++ [.listen port host]

/-- The body of `serve:docs`: the calls it makes on `app`, in order. -/
def serveDocs (config : Config) (webpackConfig : WebpackConfig) : App :=
  let app := express
  let compiler := webpack webpackConfig
  ((((app.use (.historyApiFallback false)).use
      (.WebpackDevMiddleware compiler
        { publicPath := webpackConfig.publicPath
          contentBase := config.paths.docsPublic []
          hot := true
          quiet := false
          noInfo := true
          lazy := false
          stats := config.compiler_stats })).use
      (.WebpackHotMiddleware compiler)).use
      (.static (config.paths.docsDist []))).listen config.server_port config.server_host

/-- The handlers registered before the first `listen`, in registration order. -/
def middlewareBeforeListen : App → List Middleware
  | [] => []
  | .use h :: rest => h :: middlewareBeforeListen rest
  | .listen _ _ :: _ => []

/-- A live-build hook of `compiler`: the dev middleware or the hot middleware
constructed from that compiler. -/
def isLiveBuildHook (compiler : Compiler) : Middleware → Bool
  | .WebpackDevMiddleware c _ => c == compiler
  | .WebpackHotMiddleware c => c == compiler
  | _ => false

/-! ## Incremental baselines and watch bindings -/

/-- The pair `(n, x)` for a task registered under `n` whose body calls
`src(matcher, { since: lastRun(x) })`. -/
def sinceBaseline (d : Decl) : Option (String × String) :=
  match d.body with
  | .fn (.stream s) => s.since.map fun x => (d.name, x)
  | _ => none

/-- The body registered under `name` by the declarations `ds` (first match). -/
def findBody (ds : List Decl) (name : String) : Option TaskBody :=
  (ds.find? fun d => d.name == name).map fun d => d.body

/-- The matcher a leaf passes to `src(...)`, if it calls `src`. -/
def srcMatcher : TaskBody → Option (List Glob)
  | .fn (.stream s) => some s.matcher
  | _ => none

/-- The task name a binding re-runs: the single child of its `series(...)`. -/
def Binding.target (b : Binding) : Option String :=
  match b.task with
  | .series [.ref t] => some t
  | _ => none

/-- The matcher that the target leaf of a binding passes to `src(...)`. -/
def Binding.targetMatcher (ds : List Decl) (b : Binding) : Option (List Glob) :=
  match b.target with
  | some t => (findBody ds t).bind srcMatcher
  | none => none

/-- The arguments with which the watcher returned by `watch(...)` calls a listener
of `change`. gulp is not in the source file; line 3 imports `lastRun`, `series` and
`parallel` from it, which gulp 4 provides, and the watcher of gulp 4 calls the
listener with the path of the changed file, a string, and its `fs.Stats`. -/
def changeArguments (path : String) (stats : JsValue) : List JsValue :=
  [.string path, stats]

/-- The lines logged when a file watched by the binding changes: every listener of
`change` is called with the arguments of the watcher, and `handleWatchChange` takes
the first of them as its parameter `e`. -/
def Binding.fireChange (b : Binding) (path : String) (stats : JsValue) :
    List (Option String) :=
  (b.listeners.filter fun l => l.1 == "change").map fun l =>
    match changeArguments path stats with
    | e :: _ => l.2 e
    | [] => l.2 .undefined

/-- Modelled from the spec: the glob matching of the watcher and of `src` is not
in the source file.  Per §6, a file belongs to a pattern set when it matches a
positive pattern and no pattern prefixed with `!`; `m` is the matching of one
glob, which is left open. -/
def inPatternSet (m : Glob → Path → Bool) (patterns : List Glob) (file : Path) : Bool :=
  (patterns.any fun g => !g.neg && m g file) && !(patterns.any fun g => g.neg && m g file)

/-! ## The registry and the composer -/

mutual
/-- Equality of composites is decidable. -/
def Node.decEq : (a b : Node) → Decidable (a = b)
  | .ref n, .ref m =>
    if h : n = m then isTrue (by rw [h]) else isFalse (by intro e; cases e; exact h rfl)
  | .series as, .series bs =>
    match Node.decEqList as bs with
    | isTrue h => isTrue (by rw [h])
    | isFalse h => isFalse (by intro e; cases e; exact h rfl)
  | .parallel as, .parallel bs =>
    match Node.decEqList as bs with
    | isTrue h => isTrue (by rw [h])
    | isFalse h => isFalse (by intro e; cases e; exact h rfl)
  | .ref _, .series _ => isFalse (by intro e; cases e)
  | .ref _, .parallel _ => isFalse (by intro e; cases e)
  | .series _, .ref _ => isFalse (by intro e; cases e)
  | .series _, .parallel _ => isFalse (by intro e; cases e)
  | .parallel _, .ref _ => isFalse (by intro e; cases e)
  | .parallel _, .series _ => isFalse (by intro e; cases e)
/-- Equality of lists of composites is decidable. -/
def Node.decEqList : (as bs : List Node) → Decidable (as = bs)
  | [], [] => isTrue rfl
  | [], _ :: _ => isFalse (by intro e; cases e)
  | _ :: _, [] => isFalse (by intro e; cases e)
  | a :: as, b :: bs =>
    match Node.decEq a b, Node.decEqList as bs with
    | isTrue h, isTrue hs => isTrue (by rw [h, hs])
    | isFalse h, _ => isFalse (by intro e; cases e; exact h rfl)
    | _, isFalse hs => isFalse (by intro e; cases e; exact hs rfl)
end

instance : DecidableEq Node := Node.decEq

mutual
/-- The task names a composite refers to, nested composites included, in order. -/
def Node.names : Node → List String
  | .ref n => [n]
  | .series cs => Node.namesList cs
  | .parallel cs => Node.namesList cs
/-- The names referred to by a list of children. -/
def Node.namesList : List Node → List String
  | [] => []
  | c :: cs => c.names ++ Node.namesList cs
end

mutual
/-- The child lists of the `parallel(...)` nodes inside a composite, outermost
first. -/
def Node.parallels : Node → List (List Node)
  | .ref _ => []
  | .series cs => Node.parallelsList cs
  | .parallel cs => cs :: Node.parallelsList cs
/-- The `parallel(...)` nodes inside a list of children. -/
def Node.parallelsList : List Node → List (List Node)
  | [] => []
  | c :: cs => c.parallels ++ Node.parallelsList cs
end

/-- The errors of the registration and composition phase (spec §7). -/
inductive RegistryError where
  | DuplicateTaskError (name : String)
  | UnknownTaskError (name : String)
  | CyclicCompositionError (name : String)
deriving DecidableEq, Repr

/-- Modelled from the spec: a Task of §3 as the registry holds it (gulp's task
table is not in the source file): a leaf wrapping a caller-supplied function, or a
composite. -/
inductive Task where
  | leaf
  | composite (node : Node)
deriving DecidableEq, Repr

/-- Modelled from the spec: the Registry of §4.1, the named tasks in registration
order. -/
abbrev Registry := List (String × Task)

/-- The task that a `task(name, body)` call hands to the registry. -/
def Decl.task (d : Decl) : Task :=
  match d.body with
  | .fn _ => .leaf
  | .composite node => .composite node

/-- The `task(...)` calls of a file as the registry sees them, in file order. -/
def declarations (ds : List Decl) : List (String × Task) :=
  ds.map fun d => (d.name, d.task)

/-- Modelled from the spec: the task registered under `name` (first match). -/
def Registry.find (r : Registry) (name : String) : Option Task :=
  (List.find? (fun e => e.1 == name) r).map fun e => e.2

/-- Modelled from the spec: whether `name` is registered. -/
def Registry.has (r : Registry) (name : String) : Bool := (r.find name).isSome

/-- Modelled from the spec: `get(name)` fails with `UnknownTaskError` if absent. -/
def Registry.get (r : Registry) (name : String) : Except RegistryError Task :=
  match r.find name with
  | some t => .ok t
  | none => .error (.UnknownTaskError name)

/-- Modelled from the spec: the names a composite refers to that are not
registered, in order of appearance. -/
def Registry.unknown (r : Registry) (node : Node) : List String :=
  node.names.filter fun n => !r.has n

/-- Modelled from the spec: depth-first traversal of the child closure of
`frontier`, looking for `target` (§4.1).  Running out of fuel with names left to
visit counts as reaching it. -/
def Registry.reaches (r : Registry) (target : String) : Nat → List String → Bool
  | 0, frontier => !frontier.isEmpty
  | fuel + 1, frontier =>
    frontier.any fun n =>
      n == target ||
        match r.find n with
        | some (.composite node) => Registry.reaches r target fuel node.names
        | _ => false

/-- Modelled from the spec: `register(name, fn)` fails with `DuplicateTaskError` if
`name` is present and otherwise stores a leaf task. -/
def Registry.register (r : Registry) (name : String) : Except RegistryError Registry :=
  if r.has name then .error (.DuplicateTaskError name)
  else .ok (r ++ [(name, .leaf)])

/-- Modelled from the spec: building `series(...)` / `parallel(...)` resolves every
child name eagerly and fails with `UnknownTaskError` on the first unregistered
one (§4.2). -/
def Registry.build (r : Registry) (node : Node) : Except RegistryError Node :=
  match r.unknown node with
  | n :: _ => .error (.UnknownTaskError n)
  | [] => .ok node

/-- Modelled from the spec: `composeSeries` / `composeParallel` of §4.1, for the
composite `node` registered under `name`: unknown children, then a cycle through
`name`, then the uniqueness of `name` are checked. -/
def Registry.compose (r : Registry) (name : String) (node : Node) :
    Except RegistryError Registry :=
  match r.build node with
  | .error e => .error e
  | .ok built =>
    if r.reaches name (r.length + 1) built.names then
      .error (.CyclicCompositionError name)
    else if r.has name then .error (.DuplicateTaskError name)
    else .ok (r ++ [(name, .composite built)])

/-- One `task(name, body)` call against the registry. -/
def Registry.declare (r : Registry) (d : String × Task) : Except RegistryError Registry :=
  match d.2 with
  | .leaf => r.register d.1
  | .composite node => r.compose d.1 node

/-- The declarations replayed in order; the first error stops the replay. -/
def replay : List (String × Task) → Registry → Except RegistryError Registry
  | [], r => .ok r
  | d :: ds, r =>
    match r.declare d with
    | .ok r1 => replay ds r1
    | .error e => .error e

/-- The composites that the body of a task builds when it runs: the `series(...)`
wrappers of `watch:docs`. -/
def TaskBody.wrappers : TaskBody → List Node
  | .fn (.watch bindings) => bindings.map fun b => b.task
  | _ => []

/-- The declarations that precede the one named `name`. -/
def declaredBefore (ds : List (String × Task)) (name : String) : List (String × Task) :=
  ds.takeWhile fun d => d.1 != name

/-- A composite `a` refers to the name `b`. -/
def Registry.Edge (r : Registry) (a b : String) : Prop :=
  ∃ node, r.find a = some (.composite node) ∧ b ∈ node.names

/-- No task reaches itself through composite references. -/
def Registry.Acyclic (r : Registry) : Prop :=
  ∀ n, ¬ Relation.TransGen r.Edge n n

/-- The position at which `name` was registered (the length of the registry if it
was not). -/
def Registry.rank (r : Registry) (name : String) : Nat :=
  List.findIdx (fun e => e.1 == name) r

/-- Every composite refers only to names registered before it. -/
def Registry.ordered : Registry → List String → Bool
  | [], _ => true
  | (n, .leaf) :: rest, seen => Registry.ordered rest (seen ++ [n])
  | (n, .composite node) :: rest, seen =>
    node.names.all (fun c => seen.contains c) && Registry.ordered rest (seen ++ [n])

/-! ## Expanded task trees -/

/-- A composite with every name resolved: leaves carry the task name. -/
inductive Tree where
  | leaf (name : String)
  | series (children : List Tree)
  | parallel (children : List Tree)
deriving Repr

mutual
/-- Equality of trees is decidable. -/
def Tree.decEq : (a b : Tree) → Decidable (a = b)
  | .leaf n, .leaf m =>
    if h : n = m then isTrue (by rw [h]) else isFalse (by intro e; cases e; exact h rfl)
  | .series as, .series bs =>
    match Tree.decEqList as bs with
    | isTrue h => isTrue (by rw [h])
    | isFalse h => isFalse (by intro e; cases e; exact h rfl)
  | .parallel as, .parallel bs =>
    match Tree.decEqList as bs with
    | isTrue h => isTrue (by rw [h])
    | isFalse h => isFalse (by intro e; cases e; exact h rfl)
  | .leaf _, .series _ => isFalse (by intro e; cases e)
  | .leaf _, .parallel _ => isFalse (by intro e; cases e)
  | .series _, .leaf _ => isFalse (by intro e; cases e)
  | .series _, .parallel _ => isFalse (by intro e; cases e)
  | .parallel _, .leaf _ => isFalse (by intro e; cases e)
  | .parallel _, .series _ => isFalse (by intro e; cases e)
/-- Equality of lists of trees is decidable. -/
def Tree.decEqList : (as bs : List Tree) → Decidable (as = bs)
  | [], [] => isTrue rfl
  | [], _ :: _ => isFalse (by intro e; cases e)
  | _ :: _, [] => isFalse (by intro e; cases e)
  | a :: as, b :: bs =>
    match Tree.decEq a b, Tree.decEqList as bs with
    | isTrue h, isTrue hs => isTrue (by rw [h, hs])
    | isFalse h, _ => isFalse (by intro e; cases e; exact h rfl)
    | _, isFalse hs => isFalse (by intro e; cases e; exact hs rfl)
end

instance : DecidableEq Tree := Tree.decEq

mutual
/-- The leaf names of a tree, left to right. -/
def Tree.leaves : Tree → List String
  | .leaf n => [n]
  | .series cs => Tree.leavesList cs
  | .parallel cs => Tree.leavesList cs
/-- The leaf names of a list of trees. -/
def Tree.leavesList : List Tree → List String
  | [] => []
  | c :: cs => c.leaves ++ Tree.leavesList cs
end

/-- The tree bound to `name` in `env` (first match). -/
def lookupTree (env : List (String × Tree)) (name : String) : Option Tree :=
  (env.find? fun e => e.1 == name).map fun e => e.2

mutual
/-- A composite resolved against the trees of the tasks registered so far. -/
def Node.resolve (env : List (String × Tree)) : Node → Option Tree
  | .ref n => lookupTree env n
  | .series cs => (Node.resolveList env cs).map Tree.series
  | .parallel cs => (Node.resolveList env cs).map Tree.parallel
/-- A list of children resolved, failing if one of them fails. -/
def Node.resolveList (env : List (String × Tree)) : List Node → Option (List Tree)
  | [] => some []
  | c :: cs =>
    match c.resolve env, Node.resolveList env cs with
    | some t, some ts => some (t :: ts)
    | _, _ => none
end

/-- The trees of the registered tasks, built in registration order: a leaf task
becomes a leaf, a composite is resolved against the trees built before it. -/
def expandAll : List (String × Task) → List (String × Tree) → Option (List (String × Tree))
  | [], env => some env
  | (n, .leaf) :: ds, env => expandAll ds (env ++ [(n, .leaf n)])
  | (n, .composite node) :: ds, env =>
    match node.resolve env with
    | some t => expandAll ds (env ++ [(n, t)])
    | none => none

/-- The tree of the task `name` among the declarations `ds`. -/
def treeOf (ds : List (String × Task)) (name : String) : Option Tree :=
  (expandAll ds []).bind fun env => lookupTree env name

/-- The `parallel(...)` nodes declared in `ds`, as their child lists. -/
def declaredParallels (ds : List (String × Task)) : List (List Node) :=
  ds.flatMap fun d =>
    match d.2 with
    | .composite node => node.parallels
    | .leaf => []

/-- The leaf set reachable from each child of a parallel node. -/
def leafSets (ds : List (String × Task)) (children : List Node) :
    Option (List (List String)) :=
  (expandAll ds []).bind fun env =>
    (Node.resolveList env children).map fun ts => ts.map Tree.leaves

/-! ## Output paths -/

/-- The path a leaf writes to or removes: the argument of `dest(...)`, of `rimraf`,
the target of the shell redirect, and the file that `doctoc` rewrites in place. -/
def Leaf.written : Leaf → Option Path
  | .rimraf target => some target
  | .sh (.echoTo _ target) => some target
  | .sh (.doctoc file) => some file
  | .sh (.ghPages _) => none
  | .stream s => some s.dest
  | .webpackRun => none
  | .serve => none
  | .watch _ => none

/-- The leaf registered under `name`, with the path it writes, if it writes one. -/
def writtenBy (ds : List Decl) (name : String) : Option (String × Path) :=
  match findBody ds name with
  | some (.fn leaf) => leaf.written.map fun p => (name, p)
  | _ => none

/-- The leaves scheduled under a parallel node, directly or through nested
composites. -/
def leavesUnder (ds : List (String × Task)) (children : List Node) : List String :=
  ((leafSets ds children).getD []).flatten

/-- The leaves scheduled under a parallel node with the paths they write. -/
def outputsUnder (ds : List Decl) (children : List Node) : List (String × Path) :=
  (leavesUnder (declarations ds) children).filterMap (writtenBy ds)

/-- The roots `docsSrc()`, `docsDist()` and `base()` are distinct and not nested:
none is a path-prefix of another. -/
def Paths.independentRoots (p : Paths) : Prop :=
  ¬ p.docsSrcRoot <+: p.docsDistRoot ∧ ¬ p.docsDistRoot <+: p.docsSrcRoot ∧
  ¬ p.docsSrcRoot <+: p.baseRoot ∧ ¬ p.baseRoot <+: p.docsSrcRoot ∧
  ¬ p.docsDistRoot <+: p.baseRoot ∧ ¬ p.baseRoot <+: p.docsDistRoot

/-- The leaves that pass the bare directory `docsSrc()` to `dest`. -/
def docsSrcWriters : List String :=
  ["build:docs:component-menu", "build:docs:example-sources"]

/-- The leaves that pass the bare directory `docsDist()` to `dest`. -/
def docsDistWriters : List String :=
  ["build:docs:html", "build:docs:images"]

/-- Any two distinct leaves of `outs` own disjoint output paths: the path of one is
neither equal to nor a path-prefix of the path of the other. -/
def OwnDisjointPaths (outs : List (String × Path)) : Prop :=
  ∀ a ∈ outs, ∀ b ∈ outs, a.1 ≠ b.1 → ¬ a.2 <+: b.2

deriving instance DecidableEq for Except

/-- A configuration used to instantiate the theorems at a concrete input. -/
def demoConfig : Config :=
  { paths :=
      { baseRoot := ["repo"]
        srcRoot := ["repo", "src"]
        docsSrcRoot := ["docs", "src"]
        docsDistRoot := ["docs", "dist"]
        docsPublicRoot := ["docs", "public"] }
    compiler_fail_on_warning := false
    compiler_stats := "minimal"
    server_port := 8080
    server_host := "localhost" }

/-! ## Execution traces -/

/-- What an invocation of a leaf does, as seen from outside: it begins, and it
reaches a terminal state, succeeded (`ok = true`) or failed. -/
inductive Event where
  | start (name : String)
  | finish (name : String) (ok : Bool)
deriving DecidableEq, Repr

/-- The interleavings of two traces: `t` merges `t1` and `t2`, keeping the order of
each. -/
inductive Interleave : List Event → List Event → List Event → Prop where
  | nil : Interleave [] [] []
  | left (e : Event) {t1 t2 t : List Event} :
      Interleave t1 t2 t → Interleave (e :: t1) t2 (e :: t)
  | right (e : Event) {t1 t2 t : List Event} :
      Interleave t1 t2 t → Interleave t1 (e :: t2) (e :: t)

mutual
/-- Modelled from the spec: the traces of a task tree under the Executor of §4.4
and §5 (gulp's scheduler is not in the source file), with the result of the run.
A leaf begins and then succeeds, fails, or never signals completion; `series` runs
its children in order and stops at the first child that does not succeed;
`parallel` interleaves its children, lets all of them run, and succeeds only if
every child does. -/
inductive Run : Tree → List Event → Bool → Prop where
  | leaf (n : String) (ok : Bool) : Run (.leaf n) [.start n, .finish n ok] ok
  | hang (n : String) : Run (.leaf n) [.start n] false
  | series {cs : List Tree} {t : List Event} {ok : Bool} :
      RunSeries cs t ok → Run (.series cs) t ok
  | parallel {cs : List Tree} {t : List Event} {ok : Bool} :
      RunParallel cs t ok → Run (.parallel cs) t ok
/-- The traces of the children of a `series` node. -/
inductive RunSeries : List Tree → List Event → Bool → Prop where
  | nil : RunSeries [] [] true
  | next {c : Tree} {cs : List Tree} {t1 t2 : List Event} {ok : Bool} :
      Run c t1 true → RunSeries cs t2 ok → RunSeries (c :: cs) (t1 ++ t2) ok
  | abort {c : Tree} {cs : List Tree} {t1 : List Event} :
      Run c t1 false → RunSeries (c :: cs) t1 false
/-- The traces of the children of a `parallel` node. -/
inductive RunParallel : List Tree → List Event → Bool → Prop where
  | nil : RunParallel [] [] true
  | fork {c : Tree} {cs : List Tree} {t1 t2 t : List Event} {ok1 ok2 : Bool} :
      Run c t1 ok1 → RunParallel cs t2 ok2 → Interleave t1 t2 t →
        RunParallel (c :: cs) t (ok1 && ok2)
end

/-- In the trace `t`, `b` begins only after `a` has reached a terminal state: every
occurrence of the start of `b` is preceded by a finish of `a`. -/
def Before (t : List Event) (a b : String) : Prop :=
  ∀ pre post, t = pre ++ .start b :: post → ∃ ok, .finish a ok ∈ pre

mutual
/-- A structural check that the tree makes `a` finish before `b` starts: wherever
`b` occurs, an earlier child of an enclosing `series` contains `a`. -/
def Tree.orders (a b : String) : Tree → Bool
  | .leaf n => n != b
  | .series cs => Tree.ordersSeries a b cs
  | .parallel cs => Tree.ordersParallel a b cs
/-- The check for the children of a `series` node. -/
def Tree.ordersSeries (a b : String) : List Tree → Bool
  | [] => true
  | c :: cs => c.orders a b && (c.leaves.contains a || Tree.ordersSeries a b cs)
/-- The check for the children of a `parallel` node. -/
def Tree.ordersParallel (a b : String) : List Tree → Bool
  | [] => true
  | c :: cs => c.orders a b && Tree.ordersParallel a b cs
end

mutual
/-- The trace in which the leaves run one after the other, all succeeding. -/
def Tree.sequential : Tree → List Event
  | .leaf n => [.start n, .finish n true]
  | .series cs => Tree.sequentialList cs
  | .parallel cs => Tree.sequentialList cs
/-- The sequential trace of a list of children. -/
def Tree.sequentialList : List Tree → List Event
  | [] => []
  | c :: cs => c.sequential ++ Tree.sequentialList cs
end

/-- The five leaves of `clean:docs`. -/
def cleanLeaves : List String :=
  [ "clean:docs:component-info", "clean:docs:component-menu", "clean:docs:dist",
    "clean:docs:example-menus", "clean:docs:example-sources" ]

/-- The seven build leaves of the second parallel stage of `build:docs`. -/
def buildLeaves : List String :=
  [ "build:docs:less:dist", "build:docs:docgen", "build:docs:component-menu",
    "build:docs:example-menu", "build:docs:example-sources", "build:docs:html",
    "build:docs:images" ]

/-- The tree that `docs` expands to. -/
def docsTree : Tree :=
  .series
    [ .series
        [ .parallel [.leaf "build:docs:toc", .leaf "build:docs:less:src"],
          .parallel
            [ .leaf "clean:docs:component-info", .leaf "clean:docs:component-menu",
              .leaf "clean:docs:dist", .leaf "clean:docs:example-menus",
              .leaf "clean:docs:example-sources" ],
          .parallel
            [ .leaf "build:docs:less:dist",
              .parallel
                [ .leaf "build:docs:docgen", .leaf "build:docs:component-menu",
                  .leaf "build:docs:example-menu", .leaf "build:docs:example-sources" ],
              .leaf "build:docs:html", .leaf "build:docs:images" ],
          .leaf "build:docs:webpack" ],
      .leaf "serve:docs",
      .leaf "watch:docs" ]

/-! ## Incremental runs -/

/-- A file of the working tree: its path and its modification time. -/
structure File where
  path : Path
  mtime : Nat
deriving DecidableEq, Repr

/-- A Work Item flowing through a stream: the path of the file it was read from, its
path relative to the base of the glob that matched it, and its modification time. -/
structure Item where
  path : Path
  relative : Path
  mtime : Nat
deriving DecidableEq, Repr

/-- The collaborators that are not in the source file: the glob matcher (`relative g f`
is the path of `f` relative to the base of `g` when `f` matches `g`), the stream
plugins, and the files that the webpack compiler emits. -/
structure Env where
  relative : Glob → Path → Option Path
  pipe : Pipe → List Item → List Item
  webpackEmits : List Path

/-- The state a run acts on: the files, the clock, the Run Record ledger (per task,
the start time of its last successful invocation) and, per invocation in order, the
task name with the change set it received. -/
structure World where
  files : List File
  now : Nat
  lastRuns : List (String × Nat)
  invoked : List (String × List Path)
deriving DecidableEq, Repr

/-- The value of `lastRun(name)`: absent before the first successful run. -/
def World.lastRun (w : World) (name : String) : Option Nat :=
  (w.lastRuns.find? fun r => r.1 == name).map fun r => r.2

/-- The path of `file` relative to the matcher, if the file is in its pattern set:
the first positive glob that matches gives the base. -/
def matchFile (env : Env) (matcher : List Glob) (file : Path) : Option Path :=
  if inPatternSet (fun g f => (env.relative g f).isSome) matcher file then
    matcher.findSome? fun g => if g.neg then none else env.relative g file
  else none

/-- Modelled from the spec: `changeSet` of §4.3, the matched files whose modification
time is strictly greater than the recorded start of the last successful run of
`since`, or all matched files if there is no such run or no `since` option. -/
def changeSet (env : Env) (w : World) (matcher : List Glob) (since : Option String) :
    List Item :=
  w.files.filterMap fun f =>
    match matchFile env matcher f.path with
    | none => none
    | some rel =>
      match since.bind w.lastRun with
      | some t => if t < f.mtime then some ⟨f.path, rel, f.mtime⟩ else none
      | none => some ⟨f.path, rel, f.mtime⟩

/-- The file `path` written at the current time, replacing an older version. -/
def World.write (w : World) (path : Path) : World :=
  { w with files := (w.files.filter fun f => f.path != path) ++ [⟨path, w.now⟩] }

/-- The effect of `.pipe(dest(dir))`: every item is written under `dir` at its
relative path. -/
def World.dest (w : World) (dir : Path) (items : List Item) : World :=
  items.foldl (fun w1 item => w1.write (dir ++ item.relative)) w

/-- The effect of `rimraf(target, cb)`: `target` and everything below it is removed. -/
def World.rimraf (w : World) (target : Path) : World :=
  { w with files := w.files.filter fun f => !(target.isPrefixOf f.path) }

/-- The body of a leaf run to successful completion, with the change set it read.
`doctoc` rewrites its file in place; `gh-pages`, `serve:docs` and `watch:docs` leave
the files alone. -/
def Leaf.exec (env : Env) (w : World) : Leaf → World × List Path
  | .rimraf target => (w.rimraf target, [])
  | .sh (.echoTo _ target) => (w.write target, [])
  | .sh (.doctoc file) =>
    (if w.files.any (fun f => f.path == file) then w.write file else w, [])
  | .sh (.ghPages _) => (w, [])
  | .stream s =>
    let items := changeSet env w s.matcher s.since
    (w.dest s.dest (s.pipes.foldl (fun xs p => env.pipe p xs) items),
      items.map fun i => i.path)
  | .webpackRun => (env.webpackEmits.foldl (fun w1 p => w1.write p) w, [])
  | .serve => (w, [])
  | .watch _ => (w, [])

/-- Modelled from the spec: a successful leaf invocation under the Executor of §4.4.
The start time is taken, the body runs, and on success the start time is committed
as the new baseline of the task. -/
def invoke (env : Env) (ds : List Decl) (name : String) (w : World) : World :=
  match findBody ds name with
  | some (.fn leaf) =>
    let start := w.now
    let r := leaf.exec env { w with now := w.now + 1 }
    { r.1 with
      now := r.1.now + 1
      lastRuns := (name, start) :: r.1.lastRuns.filter fun e => e.1 != name
      invoked := r.1.invoked ++ [(name, r.2)] }
  | _ => w

mutual
/-- Modelled from the spec: one schedule of the Executor in which every leaf
succeeds: `series` runs its children in order, and so does `parallel`, which is one
of the interleavings it allows. -/
def Tree.exec (env : Env) (ds : List Decl) : Tree → World → World
  | .leaf n, w => invoke env ds n w
  | .series cs, w => Tree.execList env ds cs w
  | .parallel cs, w => Tree.execList env ds cs w
/-- The children of a composite run in order. -/
def Tree.execList (env : Env) (ds : List Decl) : List Tree → World → World
  | [], w => w
  | c :: cs, w => Tree.execList env ds cs (c.exec env ds w)
end

/-- Modelled from the spec: the top-level `run(name)` of §4.4. -/
def run (env : Env) (ds : List Decl) (name : String) (w : World) : Option World :=
  (treeOf (declarations ds) name).map fun t => t.exec env ds w

/-- The paths of the files of a world. -/
def World.paths (w : World) : List Path := w.files.map fun f => f.path

/-- A glob matcher for the three glob shapes that match a file of `demoWorld`: a
literal path, everything below a directory, and the `.js` files below a directory.
The other globs of `docs.js` match no file that occurs in the runs from `demoWorld`. -/
def demoRelative (g : Glob) (file : Path) : Option Path :=
  if g.rest = "" then
    if file = g.root then file.getLast?.map fun n => [n] else none
  else if g.root.isPrefixOf file && file.length > g.root.length then
    if g.rest = "/**/*" then some (file.drop g.root.length)
    else if g.rest = "/**/*.js" then
      match file.getLast? with
      | some n => if ".js".toList.isSuffixOf n.toList then some (file.drop g.root.length) else none
      | none => none
    else none
  else none

/-- The collaborators of the concrete run: plugins pass their items through, and
webpack emits one bundle into `docsDist`. -/
def demoEnv : Env :=
  { relative := demoRelative
    pipe := fun _ items => items
    webpackEmits := [demoConfig.paths.docsDist ["bundle.js"]] }

/-- A working tree before the first run: one stylesheet of `semantic-ui-less`, the
contributing guide and the 404 page, all written at time 1; the clock reads 10 and
no task has run. -/
def demoWorld : World :=
  { files :=
      [ ⟨demoConfig.paths.base ["node_modules", "semantic-ui-less", "semantic.less"], 1⟩,
        ⟨demoConfig.paths.base [".github", "CONTRIBUTING.md"], 1⟩,
        ⟨demoConfig.paths.docsSrc ["404.html"], 1⟩ ]
    now := 10
    lastRuns := []
    invoked := [] }

/-- The state after `build:docs` has run once from `demoWorld`. -/
def firstRun : Option World :=
  run demoEnv (docsJs demoConfig) "build:docs" demoWorld

/-- The state after `build:docs` has run a second time, with no change in between. -/
def secondRun : Option World :=
  firstRun.bind fun w => run demoEnv (docsJs demoConfig) "build:docs" w

/-! ## Theorems -/

/-- C1: for every compiler outcome and every value of `compiler_fail_on_warning`, the
callback of `build:docs:webpack` reaches `cb` with no error exactly when `err` is
absent, `errors` is empty and (`warnings` is empty or the flag is off); a non-empty
`errors` always fails, and a non-empty `warnings` with no error fails exactly when the
flag is set. -/
theorem buildDocsWebpack_succeeded_iff (config : Config) (err : Option String)
    (stats : Stats) :
    ((buildDocsWebpack config err stats).completion.succeeded = true ↔
      (err = none ∧ stats.errors = [] ∧
        (stats.warnings = [] ∨ config.compiler_fail_on_warning = false))) ∧
    (∀ e es, (buildDocsWebpack config err
        { stats with errors := e :: es }).completion.succeeded = false) ∧
    (∀ w ws, ((buildDocsWebpack config none
        { stats with errors := [], warnings := w :: ws }).completion.succeeded = false ↔
      config.compiler_fail_on_warning = true)) := by
  refine ⟨?_, ?_, ?_⟩
  · cases err with
    | some e => simp [buildDocsWebpack, Completion.succeeded]
    | none =>
      cases hE : stats.errors with
      | cons e es => simp [buildDocsWebpack, Completion.succeeded, hE]
      | nil =>
        cases hW : stats.warnings with
        | nil => simp [buildDocsWebpack, Completion.succeeded, hE, hW]
        | cons w ws =>
          cases hF : config.compiler_fail_on_warning <;>
            simp [buildDocsWebpack, Completion.succeeded, hE, hW, hF]
  · intro e es
    cases err <;> simp [buildDocsWebpack, Completion.succeeded]
  · intro w ws
    cases hF : config.compiler_fail_on_warning <;>
      simp [buildDocsWebpack, Completion.succeeded, hF]

/-- C2: the handlers that `serve:docs` registers before it calls `listen` are, in
order, the history fallback, the dev middleware and the hot middleware of the
compiler, and the static-file handler: the first entry is the history fallback, the
last is the static handler for `docsDist`, every entry between them is a live-build
hook of the compiler, and `listen` is the last call made on the application. -/
theorem serveDocs_middleware_order (config : Config) (webpackConfig : WebpackConfig) :
    ∃ between : List Middleware,
      middlewareBeforeListen (serveDocs config webpackConfig) =
        [.historyApiFallback false] ++ between ++ [.static (config.paths.docsDist [])] ∧
      between.all (isLiveBuildHook (webpack webpackConfig)) = true ∧
      between.length = 2 ∧
      serveDocs config webpackConfig =
        ((middlewareBeforeListen (serveDocs config webpackConfig)).map AppCall.use) ++
          [.listen config.server_port config.server_host] := by
  refine ⟨[.WebpackDevMiddleware (webpack webpackConfig) _,
    .WebpackHotMiddleware (webpack webpackConfig)], rfl, ?_, rfl, rfl⟩
  simp [isLiveBuildHook]

/-- C8: every leaf of `docs.js` that passes `{ since: lastRun(x) }` to `src` is
registered under the name `x` itself, and the leaves that do so are exactly the six
named ones. -/
theorem since_uses_own_run_record (cfg : Config) :
    (docsJs cfg).filterMap sinceBaseline =
      [ ("build:docs:less:src", "build:docs:less:src"),
        ("build:docs:less:dist", "build:docs:less:dist"),
        ("build:docs:docgen", "build:docs:docgen"),
        ("build:docs:component-menu", "build:docs:component-menu"),
        ("build:docs:example-menu", "build:docs:example-menu"),
        ("build:docs:example-sources", "build:docs:example-sources") ] ∧
    ((docsJs cfg).filterMap sinceBaseline).all (fun p => p.2 == p.1) = true := by
  constructor
  · rfl
  · rfl

/-- C9: each of the four bindings armed by `watch:docs` has exactly one listener,
`handleWatchChange` on `change`, and the listener builds its line from `e.path` and
`e.type`; but the watcher calls it with the path itself, a string, so for every
changed file the line logged by every binding is
`File undefined was undefined, running tasks...`, which names neither the path nor
the kind of the event. -/
theorem watchDocs_change_logs_undefined (cfg : Config) (path : String) (stats : JsValue) :
    (watchDocs cfg).map (fun b => b.listeners) =
      List.replicate 4 [("change", handleWatchChange)] ∧
    (∀ p k : String, handleWatchChange (.object [("path", p), ("type", k)]) =
      some ("File " ++ p ++ " was " ++ k ++ ", running tasks...")) ∧
    (watchDocs cfg).map (fun b => b.fireChange path stats) =
      List.replicate 4 [some "File undefined was undefined, running tasks..."] := by
  refine ⟨rfl, ?_, ?_⟩
  · intro p k
    simp [handleWatchChange, JsValue.prop, JsValue.render, log]
  · simp [watchDocs, Binding.fireChange, changeArguments, handleWatchChange, JsValue.prop,
      JsValue.render, log, List.replicate]

/-- C10: each of the four bindings of `watch:docs` watches exactly the matcher that
its target leaf passes to `src`: `componentsSrc` for `build:docs:docgen`,
`examplesSectionsSrc` for `build:docs:example-menu`, `examplesSrc` for
`build:docs:example-sources` and the `docsPublic` image glob for `build:docs:images`;
so, whatever the matching of a single glob is, a file is in the watched pattern set
exactly when it is in the input set of the bound leaf. -/
theorem watchDocs_patterns_eq_leaf_input (cfg : Config) :
    (watchDocs cfg).map (fun b => (b.target, b.patterns)) =
      [ (some "build:docs:docgen", componentsSrc cfg),
        (some "build:docs:example-menu", examplesSectionsSrc cfg),
        (some "build:docs:example-sources", examplesSrc cfg),
        (some "build:docs:images",
          [⟨false, cfg.paths.docsPublic [], "/**/*.\x7bpng,jpg,gif\x7d"⟩]) ] ∧
    (watchDocs cfg).map (fun b => b.targetMatcher (docsJs cfg)) =
      (watchDocs cfg).map (fun b => some b.patterns) ∧
    (∀ (m : Glob → Path → Bool) (file : Path),
      (watchDocs cfg).map (fun b =>
          (b.targetMatcher (docsJs cfg)).map fun g => inPatternSet m g file) =
        (watchDocs cfg).map (fun b => some (inPatternSet m b.patterns file))) := by
  refine ⟨rfl, rfl, ?_⟩
  intro m file
  rfl

/-- The registry view of the declarations does not depend on the configuration. -/
theorem declarations_docsJs (cfg : Config) :
    declarations (docsJs cfg) = declarations (docsJs demoConfig) := rfl

/-- A successful replay appends the declarations to the registry. -/
theorem replay_ok_append (ds : List (String × Task)) :
    ∀ r r1 : Registry, replay ds r = .ok r1 → r1 = r ++ ds := by
  induction ds with
  | nil => intro r r1 h; simp [replay] at h; simp [h]
  | cons d ds ih =>
    intro r r1 h
    rcases d with ⟨n, t⟩
    simp only [replay] at h
    cases hd : Registry.declare r (n, t) with
    | error e => simp [hd] at h
    | ok r2 =>
      simp only [hd] at h
      have h2 := ih r2 r1 h
      have h3 : r2 = r ++ [(n, t)] := by
        cases t with
        | leaf =>
          simp only [Registry.declare, Registry.register] at hd
          split at hd
          · cases hd
          · cases hd; rfl
        | composite node =>
          simp only [Registry.declare, Registry.compose, Registry.build] at hd
          split at hd
          · cases hd
          · rename_i built hb
            split at hb
            · cases hb
            · cases hb
              split at hd
              · cases hd
              · split at hd
                · cases hd
                · cases hd; rfl
      rw [h2, h3]; simp

/-- In an ordered registry a referenced name is registered before its composite. -/
theorem rank_lt_of_ordered (r : Registry) :
    ∀ seen : List String, r.ordered seen = true →
      ∀ a b node, r.find a = some (.composite node) → b ∈ node.names →
        b ∈ seen ∨ r.rank b < r.rank a := by
  induction r with
  | nil => intro seen _ a b node h; simp [Registry.find] at h
  | cons e rest ih =>
    intro seen ho a b node hf hb
    rcases e with ⟨n, t⟩
    by_cases hna : n = a
    · subst hna
      simp only [Registry.find, List.find?, beq_self_eq_true, Option.map_some',
        Option.some.injEq] at hf
      subst hf
      simp only [Registry.ordered, Bool.and_eq_true, List.all_eq_true] at ho
      left
      simpa using ho.1 b hb
    · have hbeq : (n == a) = false := by simpa using hna
      have hfr : Registry.find rest a = some (.composite node) := by
        simpa [Registry.find, List.find?, hbeq] using hf
      have hor : Registry.ordered rest (seen ++ [n]) = true := by
        cases t with
        | leaf => simpa [Registry.ordered] using ho
        | composite nd =>
          simp only [Registry.ordered, Bool.and_eq_true] at ho
          exact ho.2
      have hra : Registry.rank ((n, t) :: rest) a = Registry.rank rest a + 1 := by
        simp [Registry.rank, List.findIdx_cons, hbeq]
      rcases ih (seen ++ [n]) hor a b node hfr hb with h | h
      · rcases List.mem_append.1 h with h | h
        · exact Or.inl h
        · right
          have hbn : b = n := by simpa using h
          subst hbn
          rw [hra]
          simp [Registry.rank, List.findIdx_cons]
      · right
        rw [hra]
        by_cases hnb : n = b
        · simp [Registry.rank, List.findIdx_cons, hnb]
        · have hbeq2 : (n == b) = false := by simpa using hnb
          have : Registry.rank ((n, t) :: rest) b = Registry.rank rest b + 1 := by
            simp [Registry.rank, List.findIdx_cons, hbeq2]
          omega

/-- An ordered registry has no cycle of composite references. -/
theorem acyclic_of_ordered (r : Registry) (h : r.ordered [] = true) : r.Acyclic := by
  have step : ∀ a b, r.Edge a b → r.rank b < r.rank a := by
    intro a b ⟨node, hf, hb⟩
    rcases rank_lt_of_ordered r [] h a b node hf hb with h1 | h1
    · simp at h1
    · exact h1
  have trans : ∀ a b, Relation.TransGen r.Edge a b → r.rank b < r.rank a := by
    intro a b hab
    induction hab with
    | single e => exact step _ _ e
    | tail _ e ih => exact lt_trans (step _ _ e) ih
  intro n hn
  exact lt_irrefl _ (trans n n hn)

set_option maxRecDepth 100000 in
/-- C3: replaying the `task(...)` calls of `docs.js` in file order against the empty
registry succeeds and registers every declaration (so no `DuplicateTaskError`, no
`UnknownTaskError` and no `CyclicCompositionError` is raised); the four `series(...)`
wrappers built inside `watch:docs` refer only to names registered before `watch:docs`
itself; and the resulting composite graph has no cycle. -/
theorem docsJs_replay_succeeds (cfg : Config) :
    replay (declarations (docsJs cfg)) [] = .ok (declarations (docsJs cfg)) ∧
    (∃ r : Registry,
      replay (declaredBefore (declarations (docsJs cfg)) "watch:docs") [] = .ok r ∧
      ((docsJs cfg).flatMap fun d => d.body.wrappers).length = 4 ∧
      ((docsJs cfg).flatMap fun d => d.body.wrappers).map r.build =
        ((docsJs cfg).flatMap fun d => d.body.wrappers).map .ok) ∧
    Registry.Acyclic (declarations (docsJs cfg)) := by
  have hw : ((docsJs cfg).flatMap fun d => d.body.wrappers) =
      ((docsJs demoConfig).flatMap fun d => d.body.wrappers) := rfl
  rw [hw, declarations_docsJs]
  exact ⟨by decide!,
    ⟨declaredBefore (declarations (docsJs demoConfig)) "watch:docs",
      by decide!, by decide!, by decide!⟩,
    acyclic_of_ordered _ (by decide!)⟩

set_option maxRecDepth 100000 in
/-- The four `parallel(...)` nodes declared in `docs.js`, in file order. -/
theorem declaredParallels_docsJs :
    declaredParallels (declarations (docsJs demoConfig)) =
      [ [ .ref "clean:docs:component-info", .ref "clean:docs:component-menu",
          .ref "clean:docs:dist", .ref "clean:docs:example-menus",
          .ref "clean:docs:example-sources" ],
        [ .ref "build:docs:docgen", .ref "build:docs:component-menu",
          .ref "build:docs:example-menu", .ref "build:docs:example-sources" ],
        [ .ref "build:docs:toc", .ref "build:docs:less:src" ],
        [ .ref "build:docs:less:dist", .ref "build:docs:json", .ref "build:docs:html",
          .ref "build:docs:images" ] ] := by
  decide!

set_option maxRecDepth 100000 in
/-- C4: `docs.js` declares four parallel nodes; in each of them the leaf sets
reachable from the children are the listed ones and are pairwise disjoint, and the
leaf expansion of `docs` is the listed sequence of seventeen names, without a
repetition. -/
theorem parallel_branches_disjoint (cfg : Config) :
    (declaredParallels (declarations (docsJs cfg))).map
        (leafSets (declarations (docsJs cfg))) =
      [ some [ ["clean:docs:component-info"], ["clean:docs:component-menu"],
          ["clean:docs:dist"], ["clean:docs:example-menus"],
          ["clean:docs:example-sources"] ],
        some [ ["build:docs:docgen"], ["build:docs:component-menu"],
          ["build:docs:example-menu"], ["build:docs:example-sources"] ],
        some [ ["build:docs:toc"], ["build:docs:less:src"] ],
        some [ ["build:docs:less:dist"],
          [ "build:docs:docgen", "build:docs:component-menu", "build:docs:example-menu",
            "build:docs:example-sources" ],
          ["build:docs:html"], ["build:docs:images"] ] ] ∧
    List.Forall (fun o => ∃ sets, o = some sets ∧ List.Pairwise List.Disjoint sets)
      ((declaredParallels (declarations (docsJs cfg))).map
        (leafSets (declarations (docsJs cfg)))) ∧
    (treeOf (declarations (docsJs cfg)) "docs").map Tree.leaves =
      some [ "build:docs:toc", "build:docs:less:src", "clean:docs:component-info",
        "clean:docs:component-menu", "clean:docs:dist", "clean:docs:example-menus",
        "clean:docs:example-sources", "build:docs:less:dist", "build:docs:docgen",
        "build:docs:component-menu", "build:docs:example-menu",
        "build:docs:example-sources", "build:docs:html", "build:docs:images",
        "build:docs:webpack", "serve:docs", "watch:docs" ] ∧
    (∃ leaves, (treeOf (declarations (docsJs cfg)) "docs").map Tree.leaves = some leaves ∧
      leaves.Nodup) := by
  rw [declarations_docsJs]
  have hsets : (declaredParallels (declarations (docsJs demoConfig))).map
        (leafSets (declarations (docsJs demoConfig))) =
      [ some [ ["clean:docs:component-info"], ["clean:docs:component-menu"],
          ["clean:docs:dist"], ["clean:docs:example-menus"],
          ["clean:docs:example-sources"] ],
        some [ ["build:docs:docgen"], ["build:docs:component-menu"],
          ["build:docs:example-menu"], ["build:docs:example-sources"] ],
        some [ ["build:docs:toc"], ["build:docs:less:src"] ],
        some [ ["build:docs:less:dist"],
          [ "build:docs:docgen", "build:docs:component-menu", "build:docs:example-menu",
            "build:docs:example-sources" ],
          ["build:docs:html"], ["build:docs:images"] ] ] := by decide!
  have hleaves : (treeOf (declarations (docsJs demoConfig)) "docs").map Tree.leaves =
      some [ "build:docs:toc", "build:docs:less:src", "clean:docs:component-info",
        "clean:docs:component-menu", "clean:docs:dist", "clean:docs:example-menus",
        "clean:docs:example-sources", "build:docs:less:dist", "build:docs:docgen",
        "build:docs:component-menu", "build:docs:example-menu",
        "build:docs:example-sources", "build:docs:html", "build:docs:images",
        "build:docs:webpack", "serve:docs", "watch:docs" ] := by decide!
  refine ⟨hsets, ?_, hleaves, ⟨_, hleaves, by decide⟩⟩
  rw [hsets]
  simp [List.Forall, List.Disjoint]

/-- Paths under roots that are not nested in one another are not nested either. -/
theorem not_nested_of_roots {r1 r2 : Path} (h1 : ¬ r1 <+: r2) (h2 : ¬ r2 <+: r1)
    (s1 s2 : Path) : ¬ (r1 ++ s1 <+: r2 ++ s2) := by
  intro h
  have a : r1 <+: r2 ++ s2 := (List.prefix_append r1 s1).trans h
  have b : r2 <+: r2 ++ s2 := List.prefix_append r2 s2
  rcases List.prefix_or_prefix_of_prefix a b with h3 | h3
  · exact h1 h3
  · exact h2 h3

set_option maxRecDepth 100000 in
/-- The leaves under each parallel node of `docs.js`, in schedule order. -/
theorem leavesUnder_docsJs :
    (declaredParallels (declarations (docsJs demoConfig))).map
        (leavesUnder (declarations (docsJs demoConfig))) =
      [ [ "clean:docs:component-info", "clean:docs:component-menu", "clean:docs:dist",
          "clean:docs:example-menus", "clean:docs:example-sources" ],
        [ "build:docs:docgen", "build:docs:component-menu", "build:docs:example-menu",
          "build:docs:example-sources" ],
        [ "build:docs:toc", "build:docs:less:src" ],
        [ "build:docs:less:dist", "build:docs:docgen", "build:docs:component-menu",
          "build:docs:example-menu", "build:docs:example-sources", "build:docs:html",
          "build:docs:images" ] ] := by
  decide!

set_option maxHeartbeats 1000000 in
/-- The leaves under each parallel node of `docs.js` with the paths they write. -/
theorem outputsUnder_docsJs (cfg : Config) :
    (declaredParallels (declarations (docsJs cfg))).map (outputsUnder (docsJs cfg)) =
      [ [ ("clean:docs:component-info", cfg.paths.docsSrc ["componentInfo"]),
          ("clean:docs:component-menu", cfg.paths.docsSrc ["componentMenu.json"]),
          ("clean:docs:dist", cfg.paths.docsDist []),
          ("clean:docs:example-menus", cfg.paths.docsSrc ["exampleMenus"]),
          ("clean:docs:example-sources", cfg.paths.docsSrc ["exampleSources.json"]) ],
        [ ("build:docs:docgen", cfg.paths.docsSrc ["componentInfo"]),
          ("build:docs:component-menu", cfg.paths.docsSrc []),
          ("build:docs:example-menu", cfg.paths.docsSrc ["exampleMenus"]),
          ("build:docs:example-sources", cfg.paths.docsSrc []) ],
        [ ("build:docs:toc", cfg.paths.base [".github", "CONTRIBUTING.md"]),
          ("build:docs:less:src", cfg.paths.docsSrc ["assets", "less"]) ],
        [ ("build:docs:less:dist", cfg.paths.docsDist ["assets", "less"]),
          ("build:docs:docgen", cfg.paths.docsSrc ["componentInfo"]),
          ("build:docs:component-menu", cfg.paths.docsSrc []),
          ("build:docs:example-menu", cfg.paths.docsSrc ["exampleMenus"]),
          ("build:docs:example-sources", cfg.paths.docsSrc []),
          ("build:docs:html", cfg.paths.docsDist []),
          ("build:docs:images", cfg.paths.docsDist []) ] ] := by
  have h := leavesUnder_docsJs
  rw [declaredParallels_docsJs] at h
  simp only [List.map_cons, List.map_nil, List.cons.injEq, and_true] at h
  obtain ⟨h1, h2, h3, h4⟩ := h
  rw [declarations_docsJs, declaredParallels_docsJs]
  simp only [List.map_cons, List.map_nil, outputsUnder, declarations_docsJs cfg, h1, h2, h3, h4]
  rfl

/-- The roots of `demoConfig` are distinct and not nested. -/
theorem demoConfig_independentRoots : demoConfig.paths.independentRoots := by
  unfold Paths.independentRoots
  decide

/-- C5, as stated, fails: with distinct, non-nested roots, `build:docs:component-menu`
and `build:docs:example-sources` are distinct leaves under the parallel node
`build:docs:json` and both pass `docsSrc()` to `dest`. -/
theorem own_disjoint_paths_fails :
    ¬ (demoConfig.paths.independentRoots →
      ∀ children ∈ declaredParallels (declarations (docsJs demoConfig)),
        OwnDisjointPaths (outputsUnder (docsJs demoConfig) children)) := by
  intro h
  have hall := outputsUnder_docsJs demoConfig
  rw [declaredParallels_docsJs] at hall
  simp only [List.map_cons, List.map_nil, List.cons.injEq, and_true] at hall
  obtain ⟨-, h2, -, -⟩ := hall
  have hc := h demoConfig_independentRoots
    [ .ref "build:docs:docgen", .ref "build:docs:component-menu",
      .ref "build:docs:example-menu", .ref "build:docs:example-sources" ]
    (by rw [declaredParallels_docsJs]; simp)
  rw [h2] at hc
  exact hc ("build:docs:component-menu", demoConfig.paths.docsSrc []) (by simp)
    ("build:docs:example-sources", demoConfig.paths.docsSrc []) (by simp) (by decide)
    (List.prefix_refl _)

set_option linter.unusedTactic false in
set_option linter.unreachableTactic false in
/-- C5, amended: with distinct, non-nested roots, under every parallel node of
`docs.js` the path written by a leaf is equal to or a path-prefix of the path written
by a distinct sibling leaf only when the former leaf is `build:docs:component-menu` or
`build:docs:example-sources`, writing to the bare directory `docsSrc()`, or
`build:docs:html` or `build:docs:images`, writing to the bare directory `docsDist()`;
every other pair of sibling leaves owns disjoint output paths. -/
theorem nested_outputs_only_at_shared_roots (cfg : Config)
    (hroots : cfg.paths.independentRoots) :
    ∀ children ∈ declaredParallels (declarations (docsJs cfg)),
      ∀ a ∈ outputsUnder (docsJs cfg) children,
        ∀ b ∈ outputsUnder (docsJs cfg) children, a.1 ≠ b.1 → a.2 <+: b.2 →
          (a.1 ∈ docsSrcWriters ∧ a.2 = cfg.paths.docsSrc []) ∨
            (a.1 ∈ docsDistWriters ∧ a.2 = cfg.paths.docsDist []) := by
  obtain ⟨r1, r2, r3, r4, r5, r6⟩ := hroots
  have f1 := not_nested_of_roots r1 r2
  have f2 := not_nested_of_roots r2 r1
  have f3 := not_nested_of_roots r3 r4
  have f4 := not_nested_of_roots r4 r3
  have f5 := not_nested_of_roots r5 r6
  have f6 := not_nested_of_roots r6 r5
  have hall := outputsUnder_docsJs cfg
  rw [declarations_docsJs, declaredParallels_docsJs] at hall
  simp only [List.map_cons, List.map_nil, List.cons.injEq, and_true] at hall
  obtain ⟨h1, h2, h3, h4⟩ := hall
  intro children hc
  rw [declarations_docsJs, declaredParallels_docsJs] at hc
  simp only [List.mem_cons, List.mem_singleton, List.not_mem_nil, or_false] at hc
  intro a ha b hb hne hpre
  rcases hc with rfl | rfl | rfl | rfl
  · rw [h1] at ha hb
    simp only [List.mem_cons, List.mem_singleton, List.not_mem_nil, or_false] at ha hb
    rcases ha with rfl | rfl | rfl | rfl | rfl <;>
      rcases hb with rfl | rfl | rfl | rfl | rfl <;>
      first
      | exact absurd rfl hne
      | (left; refine ⟨?_, rfl⟩; simp [docsSrcWriters]; done)
      | (right; refine ⟨?_, rfl⟩; simp [docsDistWriters]; done)
      | (exfalso
         simp only [Paths.docsSrc, Paths.docsDist, Paths.base,
           List.prefix_append_right_inj, List.cons_prefix_cons] at hpre
         first
         | exact f1 _ _ hpre
         | exact f2 _ _ hpre
         | exact f3 _ _ hpre
         | exact f4 _ _ hpre
         | exact f5 _ _ hpre
         | exact f6 _ _ hpre
         | (revert hpre; decide))
  · rw [h2] at ha hb
    simp only [List.mem_cons, List.mem_singleton, List.not_mem_nil, or_false] at ha hb
    rcases ha with rfl | rfl | rfl | rfl <;>
      rcases hb with rfl | rfl | rfl | rfl <;>
      first
      | exact absurd rfl hne
      | (left; refine ⟨?_, rfl⟩; simp [docsSrcWriters]; done)
      | (right; refine ⟨?_, rfl⟩; simp [docsDistWriters]; done)
      | (exfalso
         simp only [Paths.docsSrc, Paths.docsDist, Paths.base,
           List.prefix_append_right_inj, List.cons_prefix_cons] at hpre
         first
         | exact f1 _ _ hpre
         | exact f2 _ _ hpre
         | exact f3 _ _ hpre
         | exact f4 _ _ hpre
         | exact f5 _ _ hpre
         | exact f6 _ _ hpre
         | (revert hpre; decide))
  · rw [h3] at ha hb
    simp only [List.mem_cons, List.mem_singleton, List.not_mem_nil, or_false] at ha hb
    rcases ha with rfl | rfl <;>
      rcases hb with rfl | rfl <;>
      first
      | exact absurd rfl hne
      | (left; refine ⟨?_, rfl⟩; simp [docsSrcWriters]; done)
      | (right; refine ⟨?_, rfl⟩; simp [docsDistWriters]; done)
      | (exfalso
         simp only [Paths.docsSrc, Paths.docsDist, Paths.base,
           List.prefix_append_right_inj, List.cons_prefix_cons] at hpre
         first
         | exact f1 _ _ hpre
         | exact f2 _ _ hpre
         | exact f3 _ _ hpre
         | exact f4 _ _ hpre
         | exact f5 _ _ hpre
         | exact f6 _ _ hpre
         | (revert hpre; decide))
  · rw [h4] at ha hb
    simp only [List.mem_cons, List.mem_singleton, List.not_mem_nil, or_false] at ha hb
    rcases ha with rfl | rfl | rfl | rfl | rfl | rfl | rfl <;>
      rcases hb with rfl | rfl | rfl | rfl | rfl | rfl | rfl <;>
      first
      | exact absurd rfl hne
      | (left; refine ⟨?_, rfl⟩; simp [docsSrcWriters]; done)
      | (right; refine ⟨?_, rfl⟩; simp [docsDistWriters]; done)
      | (exfalso
         simp only [Paths.docsSrc, Paths.docsDist, Paths.base,
           List.prefix_append_right_inj, List.cons_prefix_cons] at hpre
         first
         | exact f1 _ _ hpre
         | exact f2 _ _ hpre
         | exact f3 _ _ hpre
         | exact f4 _ _ hpre
         | exact f5 _ _ hpre
         | exact f6 _ _ hpre
         | (revert hpre; decide))

/-- C5, amended, at a concrete input: under `build:docs:json` the two leaves that
share `docsSrc()` are found by the theorem. -/
theorem nested_outputs_only_at_shared_roots_witness :
    demoConfig.paths.independentRoots ∧
    (("build:docs:component-menu" ∈ docsSrcWriters ∧
        demoConfig.paths.docsSrc [] = demoConfig.paths.docsSrc []) ∨
      ("build:docs:component-menu" ∈ docsDistWriters ∧
        demoConfig.paths.docsSrc [] = demoConfig.paths.docsDist [])) :=
  ⟨demoConfig_independentRoots,
    nested_outputs_only_at_shared_roots demoConfig demoConfig_independentRoots
      [ .ref "build:docs:docgen", .ref "build:docs:component-menu",
        .ref "build:docs:example-menu", .ref "build:docs:example-sources" ]
      (by rw [declaredParallels_docsJs]; simp)
      ("build:docs:component-menu", demoConfig.paths.docsSrc [])
      (by
        have hall := outputsUnder_docsJs demoConfig
        rw [declaredParallels_docsJs] at hall
        simp only [List.map_cons, List.map_nil, List.cons.injEq, and_true] at hall
        rw [hall.2.1]; simp)
      ("build:docs:example-sources", demoConfig.paths.docsSrc [])
      (by
        have hall := outputsUnder_docsJs demoConfig
        rw [declaredParallels_docsJs] at hall
        simp only [List.map_cons, List.map_nil, List.cons.injEq, and_true] at hall
        rw [hall.2.1]; simp)
      (by decide) (List.prefix_refl _)⟩

/-- An event of an interleaving comes from one of the two traces, and what precedes
it there precedes it in the interleaving. -/
theorem interleave_split {t1 t2 t : List Event} (h : Interleave t1 t2 t) :
    ∀ pre e post, t = pre ++ e :: post →
      (∃ p q, t1 = p ++ e :: q ∧ ∀ x ∈ p, x ∈ pre) ∨
        (∃ p q, t2 = p ++ e :: q ∧ ∀ x ∈ p, x ∈ pre) := by
  induction h with
  | nil => intro pre e post h; simp at h
  | left x _ ih =>
    intro pre e post h
    cases pre with
    | nil =>
      simp only [List.nil_append, List.cons.injEq] at h
      obtain ⟨rfl, rfl⟩ := h
      exact Or.inl ⟨[], _, rfl, by simp⟩
    | cons y pre1 =>
      simp only [List.cons_append, List.cons.injEq] at h
      obtain ⟨rfl, h⟩ := h
      rcases ih pre1 e post h with ⟨p, q, hp, hs⟩ | ⟨p, q, hp, hs⟩
      · refine Or.inl ⟨x :: p, q, by simp [hp], ?_⟩
        intro z hz
        rcases List.mem_cons.1 hz with rfl | hz
        · simp
        · exact List.mem_cons_of_mem _ (hs z hz)
      · exact Or.inr ⟨p, q, hp, fun z hz => List.mem_cons_of_mem _ (hs z hz)⟩
  | right x _ ih =>
    intro pre e post h
    cases pre with
    | nil =>
      simp only [List.nil_append, List.cons.injEq] at h
      obtain ⟨rfl, rfl⟩ := h
      exact Or.inr ⟨[], _, rfl, by simp⟩
    | cons y pre1 =>
      simp only [List.cons_append, List.cons.injEq] at h
      obtain ⟨rfl, h⟩ := h
      rcases ih pre1 e post h with ⟨p, q, hp, hs⟩ | ⟨p, q, hp, hs⟩
      · exact Or.inl ⟨p, q, hp, fun z hz => List.mem_cons_of_mem _ (hs z hz)⟩
      · refine Or.inr ⟨x :: p, q, by simp [hp], ?_⟩
        intro z hz
        rcases List.mem_cons.1 hz with rfl | hz
        · simp
        · exact List.mem_cons_of_mem _ (hs z hz)

/-- An interleaving contains the events of both traces. -/
theorem interleave_mem {t1 t2 t : List Event} (h : Interleave t1 t2 t) :
    ∀ x, (x ∈ t1 ∨ x ∈ t2) → x ∈ t := by
  induction h with
  | nil => intro x hx; simp at hx
  | left e _ ih =>
    intro x hx
    rcases hx with hx | hx
    · rcases List.mem_cons.1 hx with rfl | hx
      · simp
      · exact List.mem_cons_of_mem _ (ih x (Or.inl hx))
    · exact List.mem_cons_of_mem _ (ih x (Or.inr hx))
  | right e _ ih =>
    intro x hx
    rcases hx with hx | hx
    · exact List.mem_cons_of_mem _ (ih x (Or.inl hx))
    · rcases List.mem_cons.1 hx with rfl | hx
      · simp
      · exact List.mem_cons_of_mem _ (ih x (Or.inr hx))

/-- Two traces one after the other are an interleaving of them. -/
theorem interleave_append (t1 t2 : List Event) : Interleave t1 t2 (t1 ++ t2) := by
  induction t1 with
  | nil =>
    induction t2 with
    | nil => exact .nil
    | cons e t2 ih => exact .right e ih
  | cons e t1 ih => exact .left e ih

mutual
/-- A successful run finishes every leaf of the tree. -/
theorem run_finishes : ∀ (T : Tree) (t : List Event), Run T t true →
    ∀ a ∈ T.leaves, Event.finish a true ∈ t
  | .leaf n, t, h => by
    intro a ha
    simp only [Tree.leaves, List.mem_singleton] at ha
    subst ha
    cases h
    simp
  | .series cs, t, h => by
    intro a ha
    cases h with
    | series hs => exact runSeries_finishes cs t hs a (by simpa [Tree.leaves] using ha)
  | .parallel cs, t, h => by
    intro a ha
    cases h with
    | parallel hs => exact runParallel_finishes cs t hs a (by simpa [Tree.leaves] using ha)
/-- A successful run of a `series` finishes every leaf of every child. -/
theorem runSeries_finishes : ∀ (cs : List Tree) (t : List Event), RunSeries cs t true →
    ∀ a ∈ Tree.leavesList cs, Event.finish a true ∈ t
  | [], t, h => by
    intro a ha
    simp [Tree.leavesList] at ha
  | c :: cs, t, h => by
    intro a ha
    simp only [Tree.leavesList, List.mem_append] at ha
    cases h with
    | next h1 h2 =>
      rcases ha with ha | ha
      · exact List.mem_append_left _ (run_finishes c _ h1 a ha)
      · exact List.mem_append_right _ (runSeries_finishes cs _ h2 a ha)
/-- A successful run of a `parallel` finishes every leaf of every child. -/
theorem runParallel_finishes : ∀ (cs : List Tree) (t : List Event),
    RunParallel cs t true → ∀ a ∈ Tree.leavesList cs, Event.finish a true ∈ t
  | [], t, h => by
    intro a ha
    simp [Tree.leavesList] at ha
  | c :: cs, t, h => by
    intro a ha
    simp only [Tree.leavesList, List.mem_append] at ha
    generalize hok : true = ok at h
    cases h with
    | fork h1 h2 hi =>
      rename_i ok1 ok2
      have hb : ok1 = true ∧ ok2 = true := by
        cases ok1 <;> cases ok2 <;> simp at hok ⊢
      obtain ⟨rfl, rfl⟩ := hb
      rcases ha with ha | ha
      · exact interleave_mem hi _ (Or.inl (run_finishes c _ h1 a ha))
      · exact interleave_mem hi _ (Or.inr (runParallel_finishes cs _ h2 a ha))
end

/-- Where a start event falls in the concatenation of two traces. -/
theorem append_split {t1 t2 pre post : List Event} {e : Event}
    (h : t1 ++ t2 = pre ++ e :: post) :
    (∃ q, t1 = pre ++ e :: q) ∨ (∃ p, pre = t1 ++ p ∧ t2 = p ++ e :: post) := by
  rcases List.append_eq_append_iff.1 h with ⟨p, hp, ht⟩ | ⟨c, hc, ht⟩
  · exact Or.inr ⟨p, hp, ht⟩
  · cases c with
    | nil =>
      simp only [List.append_nil, List.nil_append] at hc ht
      exact Or.inr ⟨[], by simp [hc], ht.symm⟩
    | cons x c =>
      simp only [List.cons_append, List.cons.injEq] at ht
      obtain ⟨rfl, -⟩ := ht
      exact Or.inl ⟨c, hc⟩

mutual
/-- If the tree orders `a` before `b`, every run starts `b` only after `a` has
finished. -/
theorem run_before (a b : String) : ∀ (T : Tree) (t : List Event) (ok : Bool),
    Run T t ok → T.orders a b = true → Before t a b
  | .leaf n, t, ok, h, ho => by
    intro pre post hp
    simp only [Tree.orders, bne_iff_ne, ne_eq] at ho
    have hm : Event.start b ∈ t := by rw [hp]; simp
    cases h with
    | leaf =>
      simp only [List.mem_cons, Event.start.injEq, List.mem_singleton, List.not_mem_nil,
        or_false] at hm
      rcases hm with hm | hm
      · exact absurd hm.symm ho
      · cases hm
    | hang =>
      simp only [List.mem_singleton, Event.start.injEq] at hm
      exact absurd hm.symm ho
  | .series cs, t, ok, h, ho => by
    cases h with
    | series hs => exact runSeries_before a b cs t ok hs (by simpa [Tree.orders] using ho)
  | .parallel cs, t, ok, h, ho => by
    cases h with
    | parallel hs =>
      exact runParallel_before a b cs t ok hs (by simpa [Tree.orders] using ho)
/-- The ordering property for the children of a `series` node. -/
theorem runSeries_before (a b : String) : ∀ (cs : List Tree) (t : List Event) (ok : Bool),
    RunSeries cs t ok → Tree.ordersSeries a b cs = true → Before t a b
  | [], t, ok, h, _ => by
    intro pre post hp
    cases h
    simp at hp
  | c :: cs, t, ok, h, ho => by
    simp only [Tree.ordersSeries, Bool.and_eq_true, Bool.or_eq_true] at ho
    obtain ⟨hc, hrest⟩ := ho
    cases h with
    | next h1 h2 =>
      intro pre post hp
      rcases append_split hp with ⟨q, hq⟩ | ⟨p, hpre, hq⟩
      · exact run_before a b c _ true h1 hc pre q hq
      · rcases hrest with hin | hrest
        · have ha : a ∈ c.leaves := by simpa using hin
          refine ⟨true, ?_⟩
          rw [hpre]
          exact List.mem_append_left _ (run_finishes c _ h1 a ha)
        · obtain ⟨o, ho⟩ := runSeries_before a b cs _ ok h2 hrest p post hq
          exact ⟨o, by rw [hpre]; exact List.mem_append_right _ ho⟩
    | abort h1 => exact run_before a b c t false h1 hc
/-- The ordering property for the children of a `parallel` node. -/
theorem runParallel_before (a b : String) :
    ∀ (cs : List Tree) (t : List Event) (ok : Bool),
      RunParallel cs t ok → Tree.ordersParallel a b cs = true → Before t a b
  | [], t, ok, h, _ => by
    intro pre post hp
    cases h
    simp at hp
  | c :: cs, t, ok, h, ho => by
    simp only [Tree.ordersParallel, Bool.and_eq_true] at ho
    obtain ⟨hc, hrest⟩ := ho
    cases h with
    | fork h1 h2 hi =>
      intro pre post hp
      rcases interleave_split hi pre _ post hp with ⟨p, q, hq, hs⟩ | ⟨p, q, hq, hs⟩
      · obtain ⟨o, ho⟩ := run_before a b c _ _ h1 hc p q hq
        exact ⟨o, hs _ ho⟩
      · obtain ⟨o, ho⟩ := runParallel_before a b cs _ _ h2 hrest p q hq
        exact ⟨o, hs _ ho⟩
end

mutual
/-- Every tree has a run: the sequential one, in which every leaf succeeds. -/
theorem run_sequential : ∀ T : Tree, Run T T.sequential true
  | .leaf n => by simpa [Tree.sequential] using Run.leaf n true
  | .series cs => by
    simpa [Tree.sequential] using Run.series (runSeries_sequential cs)
  | .parallel cs => by
    simpa [Tree.sequential] using Run.parallel (runParallel_sequential cs)
/-- The sequential run of the children of a `series` node. -/
theorem runSeries_sequential : ∀ cs : List Tree, RunSeries cs (Tree.sequentialList cs) true
  | [] => by simpa [Tree.sequentialList] using RunSeries.nil
  | c :: cs => by
    simpa [Tree.sequentialList] using
      RunSeries.next (run_sequential c) (runSeries_sequential cs)
/-- The sequential run of the children of a `parallel` node. -/
theorem runParallel_sequential :
    ∀ cs : List Tree, RunParallel cs (Tree.sequentialList cs) true
  | [] => by simpa [Tree.sequentialList] using RunParallel.nil
  | c :: cs => by
    simpa [Tree.sequentialList] using
      RunParallel.fork (run_sequential c) (runParallel_sequential cs)
        (interleave_append _ _)
end

set_option maxRecDepth 100000 in
/-- The tree that `docs` expands to. -/
theorem treeOf_docs : treeOf (declarations (docsJs demoConfig)) "docs" = some docsTree := by
  decide!

set_option maxRecDepth 100000 in
/-- The ordering checks on the tree of `docs`. -/
theorem docs_orders (tree : Tree)
    (h : treeOf (declarations (docsJs demoConfig)) "docs" = some tree) :
    (cleanLeaves.all fun a => buildLeaves.all fun b => tree.orders a b) = true ∧
    tree.orders "build:docs:less:src" "build:docs:less:dist" = true ∧
    ((["build:docs:toc", "build:docs:less:src"] ++ cleanLeaves ++ buildLeaves).all
      fun a => tree.orders a "build:docs:webpack") = true ∧
    tree.orders "build:docs:webpack" "serve:docs" = true ∧
    tree.orders "serve:docs" "watch:docs" = true ∧
    tree.orders "build:docs:webpack" "watch:docs" = true := by
  rw [treeOf_docs] at h
  cases h
  decide!

/-- C6: in every trace of `docs` allowed by the series/parallel semantics, each of the
five `clean:docs:*` leaves has reached a terminal state before any of the seven build
leaves of the second stage begins; `build:docs:less:src` is terminal before
`build:docs:less:dist` begins; `build:docs:webpack` begins only after all of those
(and `build:docs:toc`) are terminal; `serve:docs` begins only after
`build:docs:webpack` is terminal, and `watch:docs` only after `serve:docs` and
`build:docs:webpack` are. -/
theorem docs_clean_precedes_build (cfg : Config) (tree : Tree) (t : List Event) (ok : Bool)
    (htree : treeOf (declarations (docsJs cfg)) "docs" = some tree)
    (hrun : Run tree t ok) :
    (∀ a ∈ cleanLeaves, ∀ b ∈ buildLeaves, Before t a b) ∧
    Before t "build:docs:less:src" "build:docs:less:dist" ∧
    (∀ a ∈ ["build:docs:toc", "build:docs:less:src"] ++ cleanLeaves ++ buildLeaves,
      Before t a "build:docs:webpack") ∧
    Before t "build:docs:webpack" "serve:docs" ∧
    Before t "serve:docs" "watch:docs" ∧
    Before t "build:docs:webpack" "watch:docs" := by
  rw [declarations_docsJs] at htree
  obtain ⟨h1, h2, h3, h4, h5, h6⟩ := docs_orders tree htree
  refine ⟨?_, run_before _ _ tree t ok hrun h2, ?_, run_before _ _ tree t ok hrun h4,
    run_before _ _ tree t ok hrun h5, run_before _ _ tree t ok hrun h6⟩
  · intro a ha b hb
    exact run_before a b tree t ok hrun
      (List.all_eq_true.1 (List.all_eq_true.1 h1 a ha) b hb)
  · intro a ha
    exact run_before a _ tree t ok hrun (List.all_eq_true.1 h3 a ha)

/-- C6 at a concrete input: the sequential, all-succeeding run of the tree of `docs`
is a trace of it, and it has the ordering properties. -/
theorem docs_clean_precedes_build_witness :
    treeOf (declarations (docsJs demoConfig)) "docs" = some docsTree ∧
    Run docsTree docsTree.sequential true ∧
    ((∀ a ∈ cleanLeaves, ∀ b ∈ buildLeaves, Before docsTree.sequential a b) ∧
      Before docsTree.sequential "build:docs:less:src" "build:docs:less:dist" ∧
      (∀ a ∈ ["build:docs:toc", "build:docs:less:src"] ++ cleanLeaves ++ buildLeaves,
        Before docsTree.sequential a "build:docs:webpack") ∧
      Before docsTree.sequential "build:docs:webpack" "serve:docs" ∧
      Before docsTree.sequential "serve:docs" "watch:docs" ∧
      Before docsTree.sequential "build:docs:webpack" "watch:docs") :=
  ⟨treeOf_docs, run_sequential docsTree,
    docs_clean_precedes_build demoConfig docsTree docsTree.sequential true treeOf_docs
      (run_sequential docsTree)⟩

set_option maxRecDepth 1000000 in
/-- C7 at a concrete input: from a working tree with one stylesheet of
`semantic-ui-less`, the first run of `build:docs` invokes its fifteen leaves and leaves
`docsDist/assets/less/semantic.less` among the files; the second run, with no change
in between, invokes the same fifteen leaves again, every leaf that passes
`since: lastRun(...)` receives the empty change set, and the stylesheet that
`clean:docs:dist` removed is not written again, while `docsDist/404.html`, written by
a leaf without `since`, is. -/
theorem build_docs_second_run_drops_outputs :
    firstRun.map (fun w => w.invoked) = some
      [ ("build:docs:toc", []),
        ("build:docs:less:src",
          [demoConfig.paths.base ["node_modules", "semantic-ui-less", "semantic.less"]]),
        ("clean:docs:component-info", []),
        ("clean:docs:component-menu", []),
        ("clean:docs:dist", []),
        ("clean:docs:example-menus", []),
        ("clean:docs:example-sources", []),
        ("build:docs:less:dist", [demoConfig.paths.docsSrc ["assets", "less", "semantic.less"]]),
        ("build:docs:docgen", []),
        ("build:docs:component-menu", []),
        ("build:docs:example-menu", []),
        ("build:docs:example-sources", []),
        ("build:docs:html", [demoConfig.paths.docsSrc ["404.html"]]),
        ("build:docs:images", []),
        ("build:docs:webpack", []) ] ∧
    secondRun.map (fun w => w.invoked.drop 15) = some
      [ ("build:docs:toc", []),
        ("build:docs:less:src", []),
        ("clean:docs:component-info", []),
        ("clean:docs:component-menu", []),
        ("clean:docs:dist", []),
        ("clean:docs:example-menus", []),
        ("clean:docs:example-sources", []),
        ("build:docs:less:dist", []),
        ("build:docs:docgen", []),
        ("build:docs:component-menu", []),
        ("build:docs:example-menu", []),
        ("build:docs:example-sources", []),
        ("build:docs:html", [demoConfig.paths.docsSrc ["404.html"]]),
        ("build:docs:images", []),
        ("build:docs:webpack", []) ] ∧
    firstRun.map (fun w => w.paths.filter fun p => demoConfig.paths.docsDistRoot.isPrefixOf p) =
      some [ demoConfig.paths.docsDist ["assets", "less", "semantic.less"],
        demoConfig.paths.docsDist ["404.html"], demoConfig.paths.docsDist ["bundle.js"] ] ∧
    secondRun.map (fun w => w.paths.filter fun p => demoConfig.paths.docsDistRoot.isPrefixOf p) =
      some [demoConfig.paths.docsDist ["404.html"], demoConfig.paths.docsDist ["bundle.js"]] := by
  decide!
end Docs
